import Mathlib

/-!  Shallow embedding of the FAISS retrieval subsystem of
`backend/app/agent_setup.py` and `backend/app/rag.py`, together with
theorems settling the frozen claims C1 - C10.

Python strings are modelled as `List Char`, floats as `ℚ`, the FAISS
flat index as the list of its stored vectors, the filesystem and the
embedding provider as explicit state (`Disk`, `Env`).  Fallible Python
operations (file reads, provider calls, `np.array` conversions) are
modelled with `Option` / `Except`; a Python `try/except` block that
catches everything becomes a total function on the corresponding
`Except` value. -/

namespace CSA

/-- Python strings, modelled as lists of characters. -/
abbrev PyStr := List Char

/-- The whitespace class of Python `str.strip`
(space, tab, newline, carriage return, vertical tab, form feed). -/
def isSpace (c : Char) : Bool :=
  c == ' ' || c == '\t' || c == '\n' || c == '\r' || c == '\x0b' || c == '\x0c'

/-- Removal of leading whitespace (left half of Python `str.strip`). -/
def ltrim (s : PyStr) : PyStr := s.dropWhile isSpace

/-- Removal of trailing whitespace (right half of Python `str.strip`). -/
def rtrim (s : PyStr) : PyStr := (s.reverse.dropWhile isSpace).reverse

/-- Python `str.strip()`. -/
def pyStrip (s : PyStr) : PyStr := rtrim (ltrim s)

/-- Test `leadEq p s` holds when `p` is an initial segment of `s`
(Python `s.startswith(p)`); the unit test of the splitter below. -/
def leadEq : PyStr → PyStr → Bool
  | [], _ => true
  | _ :: _, [] => false
  | a :: p, b :: s => a == b && leadEq p s

/-- Left-to-right scan of Python `str.split(sep)` for a non-empty `sep`.
`fuel` only bounds the recursion; every call site passes
`fuel ≥ s.length`, which makes the first equation unreachable. -/
def splitGoF (sep : PyStr) : Nat → PyStr → PyStr → List PyStr
  | 0, _, acc => [acc.reverse]
  | _ + 1, [], acc => [acc.reverse]
  | n + 1, c :: rest, acc =>
    if leadEq sep (c :: rest) then
      acc.reverse :: splitGoF sep n ((c :: rest).drop sep.length) []
    else
      splitGoF sep n rest (c :: acc)

/-- Python `s.split(sep)` (both splits in the source use a fixed
non-empty separator, `"\n\n"` or the chunk separator). -/
def pySplit (sep s : PyStr) : List PyStr :=
  if sep = [] then [s] else splitGoF sep s.length s []

/-- Python `sep.join(l)`. -/
def pyJoin (sep : PyStr) : List PyStr → PyStr
  | [] => []
  | [c] => c
  | c :: cs => c ++ sep ++ pyJoin sep cs

/-- Python `content.replace(chr(13) ++ chr(10), chr(10))`, the newline
normalisation performed by `rag.chunk_text`. -/
def normalizeNewlines : PyStr → PyStr
  | [] => []
  | '\r' :: '\n' :: rest => '\n' :: normalizeNewlines rest
  | c :: rest => c :: normalizeNewlines rest

/-- The paragraph separator `"\n\n"` used by both chunkers. -/
def nl2 : PyStr := ['\n', '\n']

/-- The persisted-artifact chunk separator
`"\n<---CHUNK_SEPARATOR--->\n"` of `FaissRetriever.save` / `load`. -/
def SEP : PyStr :=
  ['\n', '<', '-', '-', '-', 'C', 'H', 'U', 'N', 'K', '_', 'S', 'E', 'P',
   'A', 'R', 'A', 'T', 'O', 'R', '-', '-', '-', '>', '\n']

/-- The chunking applied by `FaissRetriever.build`:
`[c.strip() for c in content.split(nl2) if c.strip()]`. -/
def chunksOf (content : PyStr) : List PyStr :=
  ((pySplit nl2 content).map pyStrip).filter (fun c => c ≠ [])

/-- Function `rag.chunk_text`: identical to `chunksOf` after normalising
`"\r\n"` to `"\n"`. -/
def chunk_text (content : PyStr) : List PyStr :=
  ((pySplit nl2 (normalizeNewlines content)).map pyStrip).filter (fun c => c ≠ [])

/-- Parsing of the persisted text file performed by
`FaissRetriever.load`: split on `SEP`, strip, drop empties. -/
def parseChunks (content : PyStr) : List PyStr :=
  ((pySplit SEP content).map pyStrip).filter (fun c => c ≠ [])

/-- Embedding vectors; float entries are modelled exactly as `ℚ`. -/
abbrev Vec := List ℚ

/-- The FAISS flat L2 index: its dimension and its stored vectors in
insertion order. -/
structure IndexFlatL2 where
  d : Nat
  vectors : List Vec
  deriving DecidableEq

/-- Field `faiss.Index.ntotal`: the number of stored vectors. -/
def IndexFlatL2.ntotal (idx : IndexFlatL2) : Nat := idx.vectors.length

/-- Squared Euclidean distance between two vectors. -/
def sqDist (a b : Vec) : ℚ :=
  (List.zipWith (fun x y => (x - y) * (x - y)) a b).foldr (· + ·) 0

/-- Insertion step of the stable insertion sort used to model the
deterministic ranking of a flat-index scan. -/
def insertBy (le : Nat → Nat → Bool) (x : Nat) : List Nat → List Nat
  | [] => [x]
  | y :: ys => if le x y then x :: y :: ys else y :: insertBy le x ys

/-- Insertion sort over ordinals. -/
def sortBy (le : Nat → Nat → Bool) : List Nat → List Nat
  | [] => []
  | x :: xs => insertBy le x (sortBy le xs)

/-- Comparator of an exhaustive flat-index scan: ascending squared L2
distance from the query, ties broken by ascending ordinal. -/
def ordLe (vs : List Vec) (q : Vec) (i j : Nat) : Bool :=
  decide (sqDist q (vs.getD i []) < sqDist q (vs.getD j [])) ||
    (decide (sqDist q (vs.getD i []) = sqDist q (vs.getD j [])) && decide (i ≤ j))

/-- All ordinals of the index, ranked by distance to the query. -/
def rankOrds (vs : List Vec) (q : Vec) : List Nat :=
  sortBy (ordLe vs q) (List.range vs.length)

/-- FAISS `IndexFlatL2.search` restricted to the returned ordinal row:
the `k` best ordinals, padded with `-1` entries when `k` exceeds
`ntotal` (exactly what FAISS reports for the missing slots). -/
def idxSearch (idx : IndexFlatL2) (q : Vec) (k : Nat) : List Int :=
  ((rankOrds idx.vectors q).take k).map (fun i => Int.ofNat i) ++
    List.replicate (k - min k idx.ntotal) (-1)

/-- Conversion `np.array(embeddings, dtype=float32)` followed by `shape[1]`:
fails (raises inside the `try`) on an empty or ragged list, otherwise
yields the common dimension and the rows unchanged. -/
def toMatrix : List Vec → Option (Nat × List Vec)
  | [] => none
  | r :: rs =>
    if rs.all (fun v => v.length == r.length) then some (r.length, r :: rs)
    else none

/-- The process environment seen by the retriever: truthiness of the
embedding service object, readable corpus file content (if any), and
the embedding provider (`none` models a raised provider error). -/
structure Env where
  svc : Bool
  corpus : Option PyStr
  embed : List PyStr → Option (List Vec)

/-- The mutable fields of a `FaissRetriever` instance. -/
structure RState where
  index : Option IndexFlatL2
  chunks : List PyStr
  initialized : Bool
  deriving DecidableEq

/-- The two files of the persisted artifact.  `indexFile = some none`
models a present but non-deserialisable index file. -/
structure Disk where
  indexFile : Option (Option IndexFlatL2)
  textFile : Option PyStr
  deriving DecidableEq

/-- Method `FaissRetriever.save`: no-op when the index is missing, otherwise
overwrites both files, joining the chunks with `SEP`. -/
def save (st : RState) (dk : Disk) : Disk :=
  match st.index with
  | none => dk
  | some idx =>
    { indexFile := some (some idx), textFile := some (pyJoin SEP st.chunks) }

/-- The `try` block of `FaissRetriever.build`.  `Except.error` carries
the state and disk at the point where a Python exception was raised
(the caller catches it); `Except.ok` is a normal return. -/
def buildBody (env : Env) (st : RState) (dk : Disk) :
    Except (RState × Disk) (RState × Disk) :=
  match env.corpus with
  | none => Except.error (st, dk)
  | some content =>
    let st1 : RState := { st with chunks := chunksOf content }
    if st1.chunks = [] then Except.ok (st1, dk)
    else
      match env.embed st1.chunks with
      | none => Except.error (st1, dk)
      | some embs =>
        match toMatrix embs with
        | none => Except.error (st1, dk)
        | some dm =>
          let st2 : RState := { st1 with index := some ⟨dm.1, dm.2⟩ }
          Except.ok (st2, save st2 dk)

/-- Method `FaissRetriever.build`: the guard on the embedding service plus the
`try/except` that swallows every exception of the body. -/
def build (env : Env) (st : RState) (dk : Disk) : RState × Disk :=
  if env.svc = false then (st, dk)
  else
    match buildBody env st dk with
    | Except.ok r => r
    | Except.error r => r

/-- Method `FaissRetriever.load`: deserialise both files, strip-parse the text
file, and accept only when the chunk list is non-empty and matches
`ntotal`; every failure falls into the `except` branch, which rebuilds
from the state mutated so far. -/
def load (env : Env) (st : RState) (dk : Disk) : RState × Disk :=
  match dk.indexFile with
  | some (some idx) =>
    let st1 : RState := { st with index := some idx }
    match dk.textFile with
    | some content =>
      let cs := parseChunks content
      let st2 : RState := { st1 with chunks := cs }
      if cs = [] ∨ cs.length ≠ idx.ntotal then build env st2 dk
      else (st2, dk)
    | none => build env st1 dk
  | _ => build env st dk

/-- Method `FaissRetriever.initialize`: idempotent; loads when both artifact
files exist, otherwise builds, and always sets the flag afterwards. -/
def initialize_ (env : Env) (st : RState) (dk : Disk) : RState × Disk :=
  if st.initialized then (st, dk)
  else
    let r := if dk.indexFile.isSome && dk.textFile.isSome
      then load env st dk else build env st dk
    ({ r.1 with initialized := true }, r.2)

/-- The result-collection loop of `FaissRetriever.search`: ordinals
outside `[0, len(chunks))` are skipped, the rest indexes the list. -/
def retrievedChunks (idx : IndexFlatL2) (chunks : List PyStr) (q : Vec)
    (k : Nat) : List PyStr :=
  (idxSearch idx q k).filterMap (fun i =>
    if h : 0 ≤ i ∧ i.toNat < chunks.length then
      some (chunks.get ⟨i.toNat, h.2⟩)
    else none)

/-- Fixed result string of `search` when index or service is missing. -/
def errNotInit : PyStr :=
  ("Error: FAISS index or embedding service is not initialized.").data

/-- Fixed result string of the `except` branch of `search`. -/
def errSearchFail : PyStr :=
  ("Error occurred during knowledge base search.").data

/-- Fixed sentinel returned when no chunk is retrieved. -/
def noInfo : PyStr :=
  ("No relevant information found in the knowledge base.").data

/-- Fixed result of `retrieve_knowledge` without a retriever. -/
def errNoRetriever : PyStr :=
  ("Error: Knowledge base retriever is not initialized.").data

/-- Method `FaissRetriever.search`: lazy initialisation, the not-initialized
guard, then the `try` block whose failure modes (provider error, empty
embedding list, dimension mismatch raised by FAISS) all land in the
`except` branch returning `errSearchFail`. -/
def search (env : Env) (st : RState) (dk : Disk) (q : PyStr) (k : Nat) :
    (RState × Disk) × PyStr :=
  let r := if st.initialized then (st, dk) else initialize_ env st dk
  match r.1.index, env.svc with
  | none, _ => (r, errNotInit)
  | some _, false => (r, errNotInit)
  | some idx, true =>
    match env.embed [q] with
    | none => (r, errSearchFail)
    | some [] => (r, errSearchFail)
    | some (e :: _) =>
      if e.length ≠ idx.d then (r, errSearchFail)
      else
        let results := retrievedChunks idx r.1.chunks e k
        if results = [] then (r, noInfo) else (r, pyJoin nl2 results)

/-- The `retrieve_knowledge` kernel function: reports a fixed error
when the global retriever is absent, otherwise searches with `k = 2`. -/
def retrieve_knowledge (retr : Option (Env × RState × Disk)) (q : PyStr) :
    PyStr :=
  match retr with
  | some x => (search x.1 x.2.1 x.2.2 q 2).2
  | none => errNoRetriever

/-! ### Lemmas about the string primitives -/

/-- Predicate `cleanChunkP sep c` says that scanning `c` followed by `sep` never
finds `sep` before the boundary: `sep` occurs neither inside `c` nor
straddling the junction of `c` and the following separator. -/
def cleanChunkP (sep c : PyStr) : Prop :=
  ∀ i, i < c.length → leadEq sep (c.drop i ++ sep) = false

instance (sep c : PyStr) : Decidable (cleanChunkP sep c) :=
  inferInstanceAs
    (Decidable (∀ i, i < c.length → leadEq sep (c.drop i ++ sep) = false))

theorem leadEq_append_self (p t : PyStr) : leadEq p (p ++ t) = true := by
  induction p with
  | nil => rfl
  | cons a p ih => simp [leadEq, ih]

theorem leadEq_length_le {p s : PyStr} (h : leadEq p s = true) :
    p.length ≤ s.length := by
  induction p generalizing s with
  | nil => simp
  | cons a p ih =>
    cases s with
    | nil => simp [leadEq] at h
    | cons b s =>
      simp only [leadEq, Bool.and_eq_true] at h
      have := ih h.2
      simp only [List.length_cons]
      omega

theorem leadEq_append_of_le {p x : PyStr} (y : PyStr)
    (h : p.length ≤ x.length) : leadEq p (x ++ y) = leadEq p x := by
  induction p generalizing x with
  | nil => rfl
  | cons a p ih =>
    cases x with
    | nil => simp at h
    | cons b x =>
      simp only [List.length_cons, Nat.add_le_add_iff_right] at h
      simp only [List.cons_append, leadEq, List.append_eq]
      rw [ih h]

theorem cleanChunkP_cons {sep : PyStr} {a : Char} {c : PyStr}
    (h : cleanChunkP sep (a :: c)) : cleanChunkP sep c := by
  intro i hi
  have := h (i + 1) (by simp only [List.length_cons]; omega)
  simpa using this

theorem cleanChunkP_no_inner {sep c : PyStr} (h : cleanChunkP sep c)
    {i : Nat} (hi : i < c.length) : leadEq sep (c.drop i) = false := by
  by_contra hx
  have hx' : leadEq sep (c.drop i) = true := by
    cases hb : leadEq sep (c.drop i) with
    | false => exact absurd hb hx
    | true => rfl
  have hlen := leadEq_length_le hx'
  have : leadEq sep (c.drop i ++ sep) = true := by
    rw [leadEq_append_of_le sep hlen]; exact hx'
  rw [h i hi] at this
  exact Bool.false_ne_true this

theorem splitGoF_fuel {sep : PyStr} (hsep : sep ≠ []) :
    ∀ n s acc, s.length ≤ n →
      splitGoF sep n s acc = splitGoF sep s.length s acc := by
  have hseplen : 0 < sep.length := List.length_pos.mpr hsep
  intro n
  induction n using Nat.strong_induction_on with
  | _ n ih =>
    intro s acc hle
    match n, s with
    | 0, [] => rfl
    | n + 1, [] => rfl
    | n + 1, c :: rest =>
      have hr : rest.length + 1 ≤ n + 1 := by
        simpa using hle
      show splitGoF sep (n + 1) (c :: rest) acc
          = splitGoF sep (rest.length + 1) (c :: rest) acc
      simp only [splitGoF]
      by_cases hc : leadEq sep (c :: rest) = true
      · rw [if_pos hc, if_pos hc]
        have hdrop : ((c :: rest).drop sep.length).length ≤ n := by
          simp only [List.length_drop, List.length_cons]
          omega
        have hdrop' : ((c :: rest).drop sep.length).length ≤ rest.length := by
          simp only [List.length_drop, List.length_cons]
          omega
        rw [ih n (by omega) _ [] hdrop,
          ih rest.length (by omega) _ [] hdrop']
      · rw [if_neg hc, if_neg hc]
        rw [ih n (by omega) rest (c :: acc) (by omega),
          ih rest.length (by omega) rest (c :: acc) (by omega)]

theorem splitGoF_all_clear {sep : PyStr} (_hsep : sep ≠ []) :
    ∀ c acc n, c.length ≤ n → cleanChunkP sep c →
      splitGoF sep n c acc = [acc.reverse ++ c] := by
  intro c
  induction c with
  | nil =>
    intro acc n _ _
    match n with
    | 0 => simp [splitGoF]
    | n + 1 => simp [splitGoF]
  | cons a c ih =>
    intro acc n hn hclean
    match n with
    | 0 => simp at hn
    | n + 1 =>
      have hc0 : leadEq sep ((a :: c).drop 0) = false :=
        cleanChunkP_no_inner hclean (by simp)
      simp only [List.drop_zero] at hc0
      simp only [splitGoF, hc0, if_neg]
      rw [ih (a :: acc) n (by simpa using hn) (cleanChunkP_cons hclean)]
      simp

theorem splitGoF_boundary {sep : PyStr} (hsep : sep ≠ []) :
    ∀ c t acc n, (c ++ sep ++ t).length ≤ n → cleanChunkP sep c →
      splitGoF sep n (c ++ sep ++ t) acc
        = (acc.reverse ++ c) :: splitGoF sep t.length t [] := by
  have hseplen : 0 < sep.length := List.length_pos.mpr hsep
  intro c
  induction c with
  | nil =>
    intro t acc n hn _
    simp only [List.nil_append] at hn ⊢
    rcases sep with _ | ⟨s0, sp⟩
    · exact absurd rfl hsep
    rcases n with _ | n
    · exfalso
      simp [List.length_append] at hn
    have hlead : leadEq (s0 :: sp) ((s0 :: sp) ++ t) = true :=
      leadEq_append_self (s0 :: sp) t
    have hdl : ((s0 :: sp) ++ t).drop (s0 :: sp).length = t :=
      List.drop_left (s0 :: sp) t
    have htlen : t.length ≤ n := by
      simp only [List.length_append, List.length_cons] at hn
      omega
    simp only [List.cons_append] at hlead hdl ⊢
    simp only [splitGoF, List.append_eq]
    rw [if_pos hlead, hdl, splitGoF_fuel (by simp) n t [] htlen]
    simp
  | cons a c ih =>
    intro t acc n hn hclean
    rcases n with _ | n
    · simp [List.length_append] at hn
    have hc0 : leadEq sep ((a :: c) ++ sep) = false := by
      have := hclean 0 (by simp)
      simpa using this
    have hlen : sep.length ≤ ((a :: c) ++ sep).length := by
      simp only [List.length_append, List.length_cons]
      omega
    have hcond : leadEq sep ((a :: c) ++ sep ++ t) = false := by
      rw [leadEq_append_of_le t hlen]
      exact hc0
    have hn' : (c ++ sep ++ t).length ≤ n := by
      simp only [List.cons_append, List.length_cons, List.length_append] at hn
      simp only [List.length_append]
      omega
    have ih' := ih t (a :: acc) n hn' (cleanChunkP_cons hclean)
    simp only [List.cons_append, List.append_assoc, List.append_eq] at hcond ih' ⊢
    simp only [splitGoF, List.append_eq]
    rw [if_neg (by simp [hcond]), ih']
    simp

theorem pySplit_pyJoin {sep : PyStr} (hsep : sep ≠ []) :
    ∀ cs : List PyStr, cs ≠ [] → (∀ c ∈ cs, cleanChunkP sep c) →
      pySplit sep (pyJoin sep cs) = cs := by
  intro cs
  induction cs with
  | nil => intro h; exact absurd rfl h
  | cons c cs ih =>
    intro _ hclean
    cases cs with
    | nil =>
      simp only [pyJoin, pySplit, if_neg hsep]
      rw [splitGoF_all_clear hsep c [] c.length le_rfl
        (hclean c (by simp))]
      simp
    | cons c' cs' =>
      have hj : pyJoin sep (c :: c' :: cs') = c ++ sep ++ pyJoin sep (c' :: cs') := rfl
      rw [hj]
      simp only [pySplit, if_neg hsep]
      rw [splitGoF_boundary hsep c (pyJoin sep (c' :: cs')) [] _ le_rfl
        (hclean c (by simp))]
      have : splitGoF sep (pyJoin sep (c' :: cs')).length (pyJoin sep (c' :: cs')) []
          = pySplit sep (pyJoin sep (c' :: cs')) := by
        simp [pySplit, if_neg hsep]
      rw [this, ih (by simp) (fun x hx => hclean x (by simp [hx]))]
      simp

theorem dropWhile_dropWhile (p : Char → Bool) (l : List Char) :
    (l.dropWhile p).dropWhile p = l.dropWhile p := by
  induction l with
  | nil => rfl
  | cons a l ih =>
    by_cases h : p a = true
    · simp [List.dropWhile_cons, h, ih]
    · simp [List.dropWhile_cons, h]

theorem exists_append_dropWhile (p : Char → Bool) (l : List Char) :
    ∃ u, l = u ++ l.dropWhile p := by
  induction l with
  | nil => exact ⟨[], rfl⟩
  | cons a l ih =>
    by_cases h : p a = true
    · obtain ⟨u, hu⟩ := ih
      refine ⟨a :: u, ?_⟩
      rw [List.dropWhile_cons, if_pos h, List.cons_append]
      exact congrArg (fun t => a :: t) hu
    · exact ⟨[], by simp [List.dropWhile_cons, h]⟩

theorem head_dropWhile_false (p : Char → Bool) {b : Char} {bs : List Char} :
    ∀ l : List Char, l.dropWhile p = b :: bs → p b = false := by
  intro l
  induction l with
  | nil => intro h; simp [List.dropWhile] at h
  | cons a l ih =>
    intro h
    by_cases hpa : p a = true
    · rw [List.dropWhile_cons, if_pos hpa] at h
      exact ih h
    · rw [List.dropWhile_cons, if_neg hpa] at h
      cases h
      simpa using hpa

theorem rtrim_is_lead (s : PyStr) : ∃ w, s = rtrim s ++ w := by
  obtain ⟨u, hu⟩ := exists_append_dropWhile isSpace s.reverse
  refine ⟨u.reverse, ?_⟩
  have : s.reverse.reverse = (u ++ s.reverse.dropWhile isSpace).reverse :=
    congrArg List.reverse hu
  simpa [rtrim, List.reverse_append] using this

theorem ltrim_rtrim_ltrim (s : PyStr) :
    ltrim (rtrim (ltrim s)) = rtrim (ltrim s) := by
  cases h : rtrim (ltrim s) with
  | nil => simp [ltrim]
  | cons b bs =>
    obtain ⟨w, hw⟩ := rtrim_is_lead (ltrim s)
    rw [h] at hw
    have hb : isSpace b = false := by
      have hw' : s.dropWhile isSpace = b :: (bs ++ w) := by
        simpa [ltrim] using hw
      exact head_dropWhile_false isSpace s hw'
    simp [ltrim, List.dropWhile_cons, hb]

theorem rtrim_rtrim (s : PyStr) : rtrim (rtrim s) = rtrim s := by
  unfold rtrim
  rw [List.reverse_reverse, dropWhile_dropWhile]

theorem pyStrip_idem (s : PyStr) : pyStrip (pyStrip s) = pyStrip s := by
  unfold pyStrip
  rw [ltrim_rtrim_ltrim, rtrim_rtrim]

/-- Every element surviving the strip-and-filter pipeline is a
non-empty, strip-fixed string. -/
theorem mem_stripFilter {l : List PyStr} {c : PyStr}
    (h : c ∈ (l.map pyStrip).filter (fun c => c ≠ [])) :
    c ≠ [] ∧ pyStrip c = c := by
  rw [List.mem_filter] at h
  obtain ⟨hmem, hne⟩ := h
  rw [List.mem_map] at hmem
  obtain ⟨a, _, rfl⟩ := hmem
  refine ⟨by simpa using hne, pyStrip_idem a⟩

theorem chunksOf_inv {content c : PyStr} (h : c ∈ chunksOf content) :
    c ≠ [] ∧ pyStrip c = c := mem_stripFilter h

theorem parseChunks_inv {content c : PyStr} (h : c ∈ parseChunks content) :
    c ≠ [] ∧ pyStrip c = c := mem_stripFilter h

theorem parseChunks_pyJoin {cs : List PyStr} (hne : cs ≠ [])
    (hinv : ∀ c ∈ cs, c ≠ [] ∧ pyStrip c = c)
    (hclean : ∀ c ∈ cs, cleanChunkP SEP c) :
    parseChunks (pyJoin SEP cs) = cs := by
  unfold parseChunks
  rw [pySplit_pyJoin (by simp [SEP]) cs hne hclean]
  have hmap : cs.map pyStrip = cs := by
    have : cs.map pyStrip = cs.map id :=
      List.map_congr_left (fun a ha => (hinv a ha).2)
    simpa using this
  rw [hmap]
  rw [List.filter_eq_self]
  intro a ha
  simpa using (hinv a ha).1

/-! ### Characterisations of the retriever operations -/

theorem build_svc_false {env : Env} (st : RState) (dk : Disk)
    (h : env.svc = false) : build env st dk = (st, dk) := by
  simp [build, h]

theorem build_no_corpus {env : Env} (st : RState) (dk : Disk)
    (hsvc : env.svc = true) (h : env.corpus = none) :
    build env st dk = (st, dk) := by
  simp [build, buildBody, hsvc, h]

theorem build_empty_corpus {env : Env} (st : RState) (dk : Disk)
    {content : PyStr} (hsvc : env.svc = true)
    (h : env.corpus = some content) (hc : chunksOf content = []) :
    build env st dk = ({ st with chunks := [] }, dk) := by
  simp [build, buildBody, hsvc, h, hc]

theorem buildBody_empty_corpus {env : Env} (st : RState) (dk : Disk)
    {content : PyStr} (h : env.corpus = some content)
    (hc : chunksOf content = []) :
    buildBody env st dk = Except.ok ({ st with chunks := [] }, dk) := by
  simp [buildBody, h, hc]

theorem build_embed_fail {env : Env} (st : RState) (dk : Disk)
    {content : PyStr} (hsvc : env.svc = true)
    (h : env.corpus = some content) (hc : chunksOf content ≠ [])
    (he : env.embed (chunksOf content) = none) :
    build env st dk = ({ st with chunks := chunksOf content }, dk) := by
  simp [build, buildBody, hsvc, h, hc, he]

theorem toMatrix_uniform {e : Vec} {es : List Vec} {d0 : Nat}
    (hd : ∀ v ∈ e :: es, v.length = d0) :
    toMatrix (e :: es) = some (d0, e :: es) := by
  have he : e.length = d0 := hd e (by simp)
  simp only [toMatrix]
  rw [if_pos]
  · rw [he]
  · rw [List.all_eq_true]
    intro v hv
    simp [hd v (by simp [hv]), he]

theorem build_matrix_fail {env : Env} (st : RState) (dk : Disk)
    {content : PyStr} {embs : List Vec} (hsvc : env.svc = true)
    (h : env.corpus = some content) (hc : chunksOf content ≠ [])
    (he : env.embed (chunksOf content) = some embs)
    (hm : toMatrix embs = none) :
    build env st dk = ({ st with chunks := chunksOf content }, dk) := by
  simp [build, buildBody, hsvc, h, hc, he, hm]

theorem toMatrix_sound {embs rows : List Vec} {d0 : Nat}
    (h : toMatrix embs = some (d0, rows)) : rows = embs := by
  cases embs with
  | nil => simp [toMatrix] at h
  | cons r rs =>
    simp only [toMatrix] at h
    by_cases hall : rs.all (fun v => v.length == r.length) = true
    · rw [if_pos hall] at h
      cases h
      rfl
    · rw [if_neg hall] at h
      cases h

theorem buildBody_success {env : Env} (st : RState) (dk : Disk)
    {content : PyStr} {embs rows : List Vec} {d0 : Nat}
    (h : env.corpus = some content) (hc : chunksOf content ≠ [])
    (he : env.embed (chunksOf content) = some embs)
    (hm : toMatrix embs = some (d0, rows)) :
    buildBody env st dk
      = Except.ok (⟨some ⟨d0, rows⟩, chunksOf content, st.initialized⟩,
         save ⟨some ⟨d0, rows⟩, chunksOf content, st.initialized⟩ dk) := by
  simp [buildBody, h, hc, he, hm]

theorem build_success {env : Env} (st : RState) (dk : Disk)
    {content : PyStr} {embs rows : List Vec} {d0 : Nat}
    (hsvc : env.svc = true) (h : env.corpus = some content)
    (hc : chunksOf content ≠ [])
    (he : env.embed (chunksOf content) = some embs)
    (hm : toMatrix embs = some (d0, rows)) :
    build env st dk
      = (⟨some ⟨d0, rows⟩, chunksOf content, st.initialized⟩,
         save ⟨some ⟨d0, rows⟩, chunksOf content, st.initialized⟩ dk) := by
  simp [build, hsvc, buildBody_success st dk h hc he hm]

theorem load_no_index {env : Env} (st : RState) (dk : Disk)
    (h : dk.indexFile = none ∨ dk.indexFile = some none) :
    load env st dk = build env st dk := by
  rcases h with h | h <;> simp [load, h]

theorem load_no_text {env : Env} (st : RState) (dk : Disk)
    {idx : IndexFlatL2} (hi : dk.indexFile = some (some idx))
    (ht : dk.textFile = none) :
    load env st dk = build env ({ st with index := some idx }) dk := by
  simp [load, hi, ht]

theorem load_mismatch {env : Env} (st : RState) (dk : Disk)
    {idx : IndexFlatL2} {content : PyStr}
    (hi : dk.indexFile = some (some idx)) (ht : dk.textFile = some content)
    (hbad : parseChunks content = []
      ∨ (parseChunks content).length ≠ idx.ntotal) :
    load env st dk
      = build env ⟨some idx, parseChunks content, st.initialized⟩ dk := by
  simp only [load, hi, ht]
  rw [if_pos hbad]

theorem load_success {env : Env} (st : RState) (dk : Disk)
    {idx : IndexFlatL2} {content : PyStr}
    (hi : dk.indexFile = some (some idx)) (ht : dk.textFile = some content)
    (hne : parseChunks content ≠ [])
    (hlen : (parseChunks content).length = idx.ntotal) :
    load env st dk = (⟨some idx, parseChunks content, st.initialized⟩, dk) := by
  simp only [load, hi, ht]
  rw [if_neg (by simp [hne, hlen])]

theorem init_already {env : Env} (st : RState) (dk : Disk)
    (h : st.initialized = true) : initialize_ env st dk = (st, dk) := by
  simp [initialize_, h]

theorem init_fresh_build {env : Env} (st : RState) (dk : Disk)
    (h : st.initialized = false)
    (hdk : dk.indexFile = none ∨ dk.textFile = none) :
    initialize_ env st dk
      = ({ (build env st dk).1 with initialized := true },
         (build env st dk).2) := by
  rcases hdk with h' | h' <;> simp [initialize_, h, h']

theorem init_fresh_load {env : Env} (st : RState) (dk : Disk)
    (h : st.initialized = false) (h1 : dk.indexFile.isSome = true)
    (h2 : dk.textFile.isSome = true) :
    initialize_ env st dk
      = ({ (load env st dk).1 with initialized := true },
         (load env st dk).2) := by
  simp [initialize_, h, h1, h2]

/-! ### The flat-index scan -/

theorem length_insertBy (le : Nat → Nat → Bool) (x : Nat) (l : List Nat) :
    (insertBy le x l).length = l.length + 1 := by
  induction l with
  | nil => rfl
  | cons y ys ih =>
    simp only [insertBy]
    by_cases h : le x y = true
    · simp [h]
    · simp [h, ih]

theorem length_sortBy (le : Nat → Nat → Bool) (l : List Nat) :
    (sortBy le l).length = l.length := by
  induction l with
  | nil => rfl
  | cons x xs ih => simp [sortBy, length_insertBy, ih]

theorem mem_insertBy {le : Nat → Nat → Bool} {x a : Nat} {l : List Nat} :
    a ∈ insertBy le x l ↔ a = x ∨ a ∈ l := by
  induction l with
  | nil => simp [insertBy]
  | cons y ys ih =>
    simp only [insertBy]
    by_cases h : le x y = true
    · simp [h, List.mem_cons]
    · simp only [h, if_neg, Bool.false_eq_true, not_false_iff, List.mem_cons, ih]
      tauto

theorem mem_sortBy {le : Nat → Nat → Bool} {a : Nat} {l : List Nat} :
    a ∈ sortBy le l ↔ a ∈ l := by
  induction l with
  | nil => simp [sortBy]
  | cons x xs ih => simp [sortBy, mem_insertBy, ih, List.mem_cons]

theorem length_rankOrds (vs : List Vec) (q : Vec) :
    (rankOrds vs q).length = vs.length := by
  simp [rankOrds, length_sortBy]

theorem mem_rankOrds_lt {vs : List Vec} {q : Vec} {i : Nat}
    (h : i ∈ rankOrds vs q) : i < vs.length := by
  have := mem_sortBy.1 h
  simpa using this

theorem filterMap_eq_map_of_forall {α β : Type} {f : α → Option β}
    {g : α → β} :
    ∀ {l : List α}, (∀ a ∈ l, f a = some (g a)) →
      l.filterMap f = l.map g := by
  intro l
  induction l with
  | nil => intro _; rfl
  | cons a l ih =>
    intro h
    rw [List.filterMap_cons_some (h a (by simp)), List.map_cons,
      ih (fun x hx => h x (by simp [hx]))]

theorem retrievedChunks_eq {idx : IndexFlatL2} {chunks : List PyStr}
    (q : Vec) (k : Nat) (halign : idx.ntotal = chunks.length) :
    retrievedChunks idx chunks q k
      = ((rankOrds idx.vectors q).take k).map (fun i => chunks.getD i []) := by
  unfold retrievedChunks idxSearch
  rw [List.filterMap_append]
  have hrep : (List.replicate (k - min k idx.ntotal) (-1 : Int)).filterMap
      (fun i => if h : 0 ≤ i ∧ i.toNat < chunks.length then
        some (chunks.get ⟨i.toNat, h.2⟩) else none) = [] := by
    rw [List.filterMap_eq_nil]
    intro a ha
    have ha' : a = -1 := List.eq_of_mem_replicate ha
    subst ha'
    rw [dif_neg]
    rintro ⟨h0, _⟩
    omega
  rw [hrep, List.append_nil]
  have hmap : ∀ a ∈ (List.take k (rankOrds idx.vectors q)).map
      (fun i => Int.ofNat i),
      (fun i : Int => if h : 0 ≤ i ∧ i.toNat < chunks.length then
        some (chunks.get ⟨i.toNat, h.2⟩) else none) a
        = some (chunks.getD a.toNat []) := by
    intro a ha
    rw [List.mem_map] at ha
    obtain ⟨i, hi, rfl⟩ := ha
    have hilt : i < chunks.length := by
      rw [← halign]
      exact mem_rankOrds_lt (List.take_subset k _ hi)
    have hcond : 0 ≤ Int.ofNat i ∧ (Int.ofNat i).toNat < chunks.length :=
      ⟨by rw [Int.ofNat_eq_coe]; exact Int.natCast_nonneg i, hilt⟩
    simp only [dif_pos hcond]
    rw [List.getD_eq_get _ _ hcond.2]
  rw [filterMap_eq_map_of_forall hmap, List.map_map]
  apply List.map_congr_left
  intro i _
  simp

theorem retrievedChunks_length {idx : IndexFlatL2} {chunks : List PyStr}
    (q : Vec) (k : Nat) (halign : idx.ntotal = chunks.length) :
    (retrievedChunks idx chunks q k).length = min k idx.ntotal := by
  rw [retrievedChunks_eq q k halign, List.length_map, List.length_take,
    length_rankOrds]
  rfl

theorem retrievedChunks_subset {idx : IndexFlatL2} {chunks : List PyStr}
    (q : Vec) (k : Nat) (halign : idx.ntotal = chunks.length) :
    ∀ c ∈ retrievedChunks idx chunks q k, c ∈ chunks := by
  rw [retrievedChunks_eq q k halign]
  intro c hc
  rw [List.mem_map] at hc
  obtain ⟨i, hi, rfl⟩ := hc
  have hilt : i < chunks.length := by
    rw [← halign]
    exact mem_rankOrds_lt (List.take_subset k _ hi)
  rw [List.getD_eq_get _ _ hilt]
  exact List.get_mem _ _ _

/-- Build leaves the index and the disk untouched when the service is
falsy, the corpus file is unreadable, or the provider always fails. -/
theorem build_fails_no_index {env : Env} (st : RState) (dk : Disk)
    (hfail : env.corpus = none ∨ env.svc = false
      ∨ (∀ cs, env.embed cs = none)) :
    (build env st dk).1.index = st.index ∧ (build env st dk).2 = dk := by
  cases hsvc : env.svc with
  | false => rw [build_svc_false st dk hsvc]; exact ⟨rfl, rfl⟩
  | true =>
    rcases hfail with hcorp | hsvc' | hemb
    · rw [build_no_corpus st dk hsvc hcorp]; exact ⟨rfl, rfl⟩
    · rw [hsvc] at hsvc'; cases hsvc'
    · cases hcorp : env.corpus with
      | none => rw [build_no_corpus st dk hsvc hcorp]; exact ⟨rfl, rfl⟩
      | some content =>
        by_cases hc : chunksOf content = []
        · rw [build_empty_corpus st dk hsvc hcorp hc]; exact ⟨rfl, rfl⟩
        · rw [build_embed_fail st dk hsvc hcorp hc (hemb _)]
          exact ⟨rfl, rfl⟩

/-- The chunk invariant of C10: non-empty, strip-fixed strings. -/
def chunkInv (cs : List PyStr) : Prop := ∀ c ∈ cs, c ≠ [] ∧ pyStrip c = c

theorem build_preserves_chunkInv (env : Env) (st : RState) (dk : Disk)
    (h : chunkInv st.chunks) : chunkInv (build env st dk).1.chunks := by
  cases hsvc : env.svc with
  | false => rw [build_svc_false st dk hsvc]; exact h
  | true =>
    cases hcorp : env.corpus with
    | none => rw [build_no_corpus st dk hsvc hcorp]; exact h
    | some content =>
      by_cases hc : chunksOf content = []
      · rw [build_empty_corpus st dk hsvc hcorp hc]
        intro c hc'
        simp at hc'
      · cases hemb : env.embed (chunksOf content) with
        | none =>
          rw [build_embed_fail st dk hsvc hcorp hc hemb]
          intro c hc'
          exact chunksOf_inv hc'
        | some embs =>
          cases hm : toMatrix embs with
          | none =>
            rw [build_matrix_fail st dk hsvc hcorp hc hemb hm]
            intro c hc'
            exact chunksOf_inv hc'
          | some dm =>
            obtain ⟨d0, rows⟩ := dm
            rw [build_success st dk hsvc hcorp hc hemb hm]
            intro c hc'
            exact chunksOf_inv hc'

theorem load_preserves_chunkInv (env : Env) (st : RState) (dk : Disk)
    (h : chunkInv st.chunks) : chunkInv (load env st dk).1.chunks := by
  cases hi : dk.indexFile with
  | none =>
    rw [load_no_index st dk (Or.inl hi)]
    exact build_preserves_chunkInv env st dk h
  | some ifc =>
    cases ifc with
    | none =>
      rw [load_no_index st dk (Or.inr hi)]
      exact build_preserves_chunkInv env st dk h
    | some idx =>
      cases ht : dk.textFile with
      | none =>
        rw [load_no_text st dk hi ht]
        exact build_preserves_chunkInv env _ dk h
      | some content =>
        by_cases hbad : parseChunks content = []
            ∨ (parseChunks content).length ≠ idx.ntotal
        · rw [load_mismatch st dk hi ht hbad]
          apply build_preserves_chunkInv
          intro c hc'
          exact parseChunks_inv hc'
        · have hne : parseChunks content ≠ [] := fun hx => hbad (Or.inl hx)
          have hlen : (parseChunks content).length = idx.ntotal := by
            by_contra hx
            exact hbad (Or.inr hx)
          rw [load_success st dk hi ht hne hlen]
          intro c hc'
          exact parseChunks_inv hc'

/-- A successful build pipeline yields an index whose size equals the
length of the stored chunk list (shared core of C1 and C4). -/
theorem build_success_invariant (env : Env) (st : RState) (dk : Disk)
    {content : PyStr} {embs : List Vec} {d0 : Nat}
    (hsvc : env.svc = true) (hcorp : env.corpus = some content)
    (hne : chunksOf content ≠ [])
    (hemb : env.embed (chunksOf content) = some embs)
    (hlen : embs.length = (chunksOf content).length)
    (hd : ∀ v ∈ embs, v.length = d0) :
    ∃ idx, (build env st dk).1.index = some idx ∧
      idx.ntotal = (build env st dk).1.chunks.length := by
  cases embs with
  | nil =>
    exfalso
    exact hne (List.length_eq_zero.mp hlen.symm)
  | cons e es =>
    have hm := toMatrix_uniform hd
    rw [build_success st dk hsvc hcorp hne hemb hm]
    refine ⟨⟨d0, e :: es⟩, rfl, ?_⟩
    simpa [IndexFlatL2.ntotal] using hlen

/-! ### Concrete objects used by the witnesses and counterexamples -/

/-- A deterministic embedding stub: one 1-dimensional vector per
input text. -/
def embedStub : List PyStr → Option (List Vec) :=
  fun ts => some (ts.map (fun _ => [(0 : ℚ)]))

def st0 : RState := ⟨none, [], false⟩

def dk0 : Disk := ⟨none, none⟩

def wEnv : Env := ⟨true, some (("A\n\nB").data), embedStub⟩

/-- Environment where the corpus file is missing and the provider
always fails. -/
def failEnv : Env := ⟨true, none, fun _ => none⟩

/-- Environment whose corpus yields zero non-empty chunks. -/
def emptyEnv : Env := ⟨true, some (("  \n\n \n\n").data), embedStub⟩

def stPrev : RState := ⟨none, [['x']], false⟩

/-- A corpus that is a single paragraph containing the literal chunk
separator (no blank line occurs inside the separator). -/
def sepCorpus : PyStr := ("A\n<---CHUNK_SEPARATOR--->\nB").data

def sepEnv : Env := ⟨true, some sepCorpus, embedStub⟩

/-- A two-vector index paired below with a one-chunk text file. -/
def idx2 : IndexFlatL2 := ⟨1, [[0], [1]]⟩

def dkMismatch : Disk := ⟨some (some idx2), some (("A").data)⟩

/-- A consistent one-vector artifact. -/
def dkLoad : Disk := ⟨some (some ⟨1, [[0]]⟩), some (("A").data)⟩

/-! ### Claim theorems -/

/-- C1: for every retriever state reached by a successful build (the
provider returned one equal-dimension vector per chunk) and by every
successful load, the number of vectors stored in the index equals the
length of the parallel chunk sequence. -/
theorem c1_size_invariant :
    (∀ (env : Env) (st : RState) (dk : Disk) (content : PyStr)
      (embs : List Vec) (d : Nat),
      env.svc = true → env.corpus = some content →
      chunksOf content ≠ [] →
      env.embed (chunksOf content) = some embs →
      embs.length = (chunksOf content).length →
      (∀ v ∈ embs, v.length = d) →
      ∃ idx, (build env st dk).1.index = some idx ∧
        idx.ntotal = (build env st dk).1.chunks.length) ∧
    (∀ (env : Env) (st : RState) (dk : Disk) (idx : IndexFlatL2)
      (content : PyStr),
      dk.indexFile = some (some idx) → dk.textFile = some content →
      parseChunks content ≠ [] →
      (parseChunks content).length = idx.ntotal →
      (load env st dk).1.index = some idx ∧
        (load env st dk).1.chunks.length = idx.ntotal) := by
  constructor
  · intro env st dk content embs d hsvc hcorp hne hemb hlen hd
    exact build_success_invariant env st dk hsvc hcorp hne hemb hlen hd
  · intro env st dk idx content hi ht hne hlen
    rw [load_success st dk hi ht hne hlen]
    exact ⟨rfl, hlen⟩

/-- C1 witness: a concrete successful build (two chunks, stub provider)
and a concrete successful load of a consistent one-vector artifact. -/
theorem c1_size_invariant_witness :
    (∃ idx, (build wEnv st0 dk0).1.index = some idx ∧
      idx.ntotal = (build wEnv st0 dk0).1.chunks.length) ∧
    ((load wEnv st0 dkLoad).1.index = some ⟨1, [[0]]⟩ ∧
      (load wEnv st0 dkLoad).1.chunks.length
        = (⟨1, [[0]]⟩ : IndexFlatL2).ntotal) := by
  constructor
  · exact c1_size_invariant.1 wEnv st0 dk0 (("A\n\nB").data) [[0], [0]] 1
      rfl rfl (by decide) (by decide) (by decide) (by decide)
  · exact c1_size_invariant.2 wEnv st0 dkLoad ⟨1, [[0]]⟩ (("A").data)
      rfl rfl (by decide) (by decide)

/-- C2 counterexample: on a corpus with zero non-empty chunks the try
block of build returns normally (ok, not a raised error surfaced to the
caller) and no index is created; the claimed EmptyCorpus failure does
not exist in the code. -/
theorem c2_counterexample :
    buildBody emptyEnv stPrev dk0 = Except.ok (⟨none, [], false⟩, dk0) ∧
    (build emptyEnv stPrev dk0).1.index = none := by
  constructor
  · have h := buildBody_empty_corpus stPrev dk0
      (rfl : emptyEnv.corpus = some (("  \n\n \n\n").data)) (by decide)
    exact h
  · rw [build_empty_corpus stPrev dk0 rfl rfl (by decide)]
    rfl

/-- C2 amended: on a corpus with zero non-empty chunks, build logs a
warning and returns normally: no error reaches the caller, the chunk
list is set to empty, and no index (in particular no zero-vector index)
is ever created — the prior index field is left unchanged. -/
theorem c2_empty_corpus_amended :
    ∀ (env : Env) (st : RState) (dk : Disk) (content : PyStr),
      env.corpus = some content → chunksOf content = [] →
      buildBody env st dk = Except.ok ({ st with chunks := [] }, dk) ∧
      (env.svc = true → build env st dk = ({ st with chunks := [] }, dk)) ∧
      (build env st dk).1.index = st.index := by
  intro env st dk content hcorp hc
  refine ⟨buildBody_empty_corpus st dk hcorp hc,
    fun hsvc => build_empty_corpus st dk hsvc hcorp hc, ?_⟩
  cases hsvc : env.svc with
  | false => rw [build_svc_false st dk hsvc]
  | true => rw [build_empty_corpus st dk hsvc hcorp hc]

/-- C2 witness for the amended statement at a concrete blank corpus. -/
theorem c2_empty_corpus_witness :
    buildBody emptyEnv st0 dk0 = Except.ok ({ st0 with chunks := [] }, dk0) ∧
    (emptyEnv.svc = true →
      build emptyEnv st0 dk0 = ({ st0 with chunks := [] }, dk0)) ∧
    (build emptyEnv st0 dk0).1.index = st0.index :=
  c2_empty_corpus_amended emptyEnv st0 dk0 (("  \n\n \n\n").data) rfl
    (by decide)

/-- C3 counterexample: with the corpus file missing (and no artifact on
disk), initialize() completes, marks the retriever initialized and
swallows the failure — the retriever does not remain uninitialized and
nothing propagates. -/
theorem c3_counterexample :
    (initialize_ failEnv st0 dk0).1.initialized = true ∧
    (initialize_ failEnv st0 dk0).1.index = none := by
  constructor <;> decide

/-- C3 amended: when the corpus file is unavailable, the service is
falsy, or the provider always fails, and no index file exists, the
failure is caught inside build: initialize() still completes, sets the
initialized flag, leaves index and disk unchanged, and — when no index
was present — a subsequent search returns the fixed not-initialized
error string instead of an exception. -/
theorem c3_swallowed_failure_amended :
    ∀ (env : Env) (st : RState) (dk : Disk) (q : PyStr) (k : Nat),
      dk.indexFile = none →
      (env.corpus = none ∨ env.svc = false
        ∨ (∀ cs, env.embed cs = none)) →
      (initialize_ env st dk).1.initialized = true ∧
      (initialize_ env st dk).1.index = st.index ∧
      (initialize_ env st dk).2 = dk ∧
      (st.index = none →
        (search env (initialize_ env st dk).1
          (initialize_ env st dk).2 q k).2 = errNotInit) := by
  intro env st dk q k hdk hfail
  cases hinit : st.initialized with
  | true =>
    rw [init_already st dk hinit]
    refine ⟨hinit, rfl, rfl, ?_⟩
    intro hidx
    simp [search, hinit, hidx]
  | false =>
    obtain ⟨hbi, hbd⟩ := build_fails_no_index st dk hfail
    rw [init_fresh_build st dk hinit (Or.inl hdk)]
    refine ⟨rfl, hbi, hbd, ?_⟩
    intro hidx
    have hidx1 : ({ (build env st dk).1 with initialized := true }
        : RState).index = none := by
      simpa [hbi] using hidx
    simp [search, hidx1]

/-- C3 witness for the amended statement at the concrete failing
environment. -/
theorem c3_swallowed_failure_witness :
    (initialize_ failEnv st0 dk0).1.initialized = true ∧
    (initialize_ failEnv st0 dk0).1.index = st0.index ∧
    (initialize_ failEnv st0 dk0).2 = dk0 ∧
    (st0.index = none →
      (search failEnv (initialize_ failEnv st0 dk0).1
        (initialize_ failEnv st0 dk0).2 (['q']) 2).2 = errNotInit) :=
  c3_swallowed_failure_amended failEnv st0 dk0 (['q']) 2 rfl (Or.inl rfl)

/-- C4 counterexample: an inconsistent artifact (two-vector index file
next to a one-chunk text file) with the corpus file missing: the
triggered rebuild fails, and the next initialize() finishes initialized
with the stale index and the freshly parsed chunks still mismatched —
a state that search would serve. -/
theorem c4_counterexample :
    (initialize_ failEnv st0 dkMismatch).1.initialized = true ∧
    (initialize_ failEnv st0 dkMismatch).1.index = some idx2 ∧
    (initialize_ failEnv st0 dkMismatch).1.chunks = [['A']] ∧
    idx2.ntotal ≠ (initialize_ failEnv st0 dkMismatch).1.chunks.length := by
  refine ⟨?_, ?_, ?_, ?_⟩ <;> decide

/-- C4 amended: an inconsistent artifact is never accepted — the load
path always re-enters build (with the partial in-memory state), and
whenever the rebuild pipeline succeeds the rebuilt state satisfies the
size invariant again; only if the rebuild itself also fails can a stale
mismatched pair remain in memory. -/
theorem c4_rebuild_on_corruption_amended :
    (∀ (env : Env) (st : RState) (dk : Disk) (idx : IndexFlatL2)
      (content : PyStr),
      dk.indexFile = some (some idx) → dk.textFile = some content →
      (parseChunks content = []
        ∨ (parseChunks content).length ≠ idx.ntotal) →
      load env st dk
        = build env ⟨some idx, parseChunks content, st.initialized⟩ dk) ∧
    (∀ (env : Env) (st : RState) (dk : Disk),
      (dk.indexFile = none ∨ dk.indexFile = some none) →
      load env st dk = build env st dk) ∧
    (∀ (env : Env) (st : RState) (dk : Disk) (content : PyStr)
      (embs : List Vec) (d : Nat),
      env.svc = true → env.corpus = some content →
      chunksOf content ≠ [] →
      env.embed (chunksOf content) = some embs →
      embs.length = (chunksOf content).length →
      (∀ v ∈ embs, v.length = d) →
      ∃ idx, (build env st dk).1.index = some idx ∧
        idx.ntotal = (build env st dk).1.chunks.length) := by
  refine ⟨fun env st dk idx content hi ht hbad =>
      load_mismatch st dk hi ht hbad,
    fun env st dk h => load_no_index st dk h,
    fun env st dk content embs d hsvc hcorp hne hemb hlen hd =>
      build_success_invariant env st dk hsvc hcorp hne hemb hlen hd⟩

/-- C4 witness: the three parts of the amended statement at concrete
inputs (mismatched artifact, absent artifact, successful rebuild). -/
theorem c4_rebuild_on_corruption_witness :
    (load failEnv st0 dkMismatch
      = build failEnv ⟨some idx2, parseChunks (("A").data),
          st0.initialized⟩ dkMismatch) ∧
    (load failEnv st0 dk0 = build failEnv st0 dk0) ∧
    (∃ idx, (build wEnv st0 dk0).1.index = some idx ∧
      idx.ntotal = (build wEnv st0 dk0).1.chunks.length) := by
  refine ⟨?_, ?_, ?_⟩
  · exact c4_rebuild_on_corruption_amended.1 failEnv st0 dkMismatch idx2
      (("A").data) rfl rfl (by decide)
  · exact c4_rebuild_on_corruption_amended.2.1 failEnv st0 dk0 (Or.inl rfl)
  · exact c4_rebuild_on_corruption_amended.2.2 wEnv st0 dk0
      (("A\n\nB").data) [[0], [0]] 1 rfl rfl (by decide) (by decide)
      (by decide) (by decide)

/-- A state as produced by a one-chunk build: aligned, clean chunk. -/
def stW : RState := ⟨some ⟨1, [[0]]⟩, [['A']], true⟩

/-- C5 amended: save followed by load restores exactly the same index
and chunk sequence — hence the same ordinal-to-text mapping and the
same retrieved chunks for every query vector — provided no chunk
contains, or straddles into, the persisted separator; a separator
collision breaks the round trip (see the counterexample). -/
theorem c5_roundtrip_amended :
    ∀ (st : RState) (dk : Disk) (idx : IndexFlatL2),
      st.index = some idx →
      idx.ntotal = st.chunks.length →
      st.chunks ≠ [] →
      (∀ c ∈ st.chunks, c ≠ [] ∧ pyStrip c = c) →
      (∀ c ∈ st.chunks, cleanChunkP SEP c) →
      ∀ (env : Env) (st1 : RState) (q : Vec) (k : Nat),
        load env st1 (save st dk)
          = (⟨some idx, st.chunks, st1.initialized⟩, save st dk) ∧
        (load env st1 (save st dk)).1.chunks = st.chunks ∧
        retrievedChunks idx (load env st1 (save st dk)).1.chunks q k
          = retrievedChunks idx st.chunks q k := by
  intro st dk idx hidx halign hne hinv hclean env st1 q k
  have hsave : save st dk
      = ⟨some (some idx), some (pyJoin SEP st.chunks)⟩ := by
    simp [save, hidx]
  have hparse : parseChunks (pyJoin SEP st.chunks) = st.chunks :=
    parseChunks_pyJoin hne hinv hclean
  have hload := @load_success env st1 (save st dk) idx (pyJoin SEP st.chunks)
    ((by rw [hsave]) : (save st dk).indexFile = some (some idx))
    ((by rw [hsave]) : (save st dk).textFile = some (pyJoin SEP st.chunks))
    (by rw [hparse]; exact hne)
    (by rw [hparse]; exact halign.symm)
  rw [hparse] at hload
  exact ⟨hload, by rw [hload], by rw [hload]⟩

/-- C5 witness: round trip at a concrete aligned one-chunk state. -/
theorem c5_roundtrip_witness :
    load wEnv st0 (save stW dk0)
      = (⟨some ⟨1, [[0]]⟩, stW.chunks, st0.initialized⟩, save stW dk0) ∧
    (load wEnv st0 (save stW dk0)).1.chunks = stW.chunks ∧
    retrievedChunks ⟨1, [[0]]⟩ (load wEnv st0 (save stW dk0)).1.chunks
        [0] 2
      = retrievedChunks ⟨1, [[0]]⟩ stW.chunks [0] 2 :=
  c5_roundtrip_amended stW dk0 ⟨1, [[0]]⟩ rfl (by decide) (by decide)
    (by decide) (by decide) wEnv st0 [0] 2

/-- C5 counterexample: a state actually built from a corpus whose
single chunk contains the literal separator; after save, a load
performed when the corpus file is gone yields a state whose ordinal 0
maps to different text than before the save. -/
theorem c5_counterexample :
    (build sepEnv st0 dk0).1.chunks.head? = some sepCorpus ∧
    ((load failEnv st0 (build sepEnv st0 dk0).2).1.chunks).head?
      = some (['A']) ∧
    ((load failEnv st0 (build sepEnv st0 dk0).2).1.chunks).head?
      ≠ (build sepEnv st0 dk0).1.chunks.head? := by
  refine ⟨?_, ?_, ?_⟩ <;> decide

/-- C6 counterexample: the corpus produces a single chunk that contains
the literal separator (occurrence at offset 1); build completes without
any validation error and save persists the chunk unmodified — the
persisted text file is exactly that chunk. -/
theorem c6_counterexample :
    (∃ i, i < sepCorpus.length ∧ leadEq SEP (sepCorpus.drop i) = true) ∧
    buildBody sepEnv st0 dk0
      = Except.ok ((build sepEnv st0 dk0).1, (build sepEnv st0 dk0).2) ∧
    (build sepEnv st0 dk0).1.chunks = [sepCorpus] ∧
    (build sepEnv st0 dk0).2.textFile = some sepCorpus := by
  refine ⟨⟨1, by decide, by decide⟩, rfl, by decide, by decide⟩

/-- C6 amended: the construction path performs no separator validation
or escaping whatsoever: whenever the build pipeline succeeds, the try
block returns ok (no construction-time error) and the persisted text
file is exactly the chunks joined verbatim with the separator — also
when a chunk contains the separator. -/
theorem c6_no_validation_amended :
    ∀ (env : Env) (st : RState) (dk : Disk) (content : PyStr)
      (embs rows : List Vec) (d : Nat),
      env.svc = true → env.corpus = some content →
      chunksOf content ≠ [] →
      env.embed (chunksOf content) = some embs →
      toMatrix embs = some (d, rows) →
      (build env st dk).2.textFile
        = some (pyJoin SEP (chunksOf content)) ∧
      (build env st dk).1.chunks = chunksOf content ∧
      buildBody env st dk
        = Except.ok ((build env st dk).1, (build env st dk).2) := by
  intro env st dk content embs rows d hsvc hcorp hne hemb hm
  have hb := build_success st dk hsvc hcorp hne hemb hm
  have hbb := buildBody_success st dk hcorp hne hemb hm
  refine ⟨?_, ?_, ?_⟩
  · rw [hb]
    simp [save]
  · rw [hb]
  · rw [hbb, hb]

/-- C6 witness for the amended statement, at the very corpus whose
chunk contains the separator. -/
theorem c6_no_validation_witness :
    (build sepEnv st0 dk0).2.textFile
      = some (pyJoin SEP (chunksOf sepCorpus)) ∧
    (build sepEnv st0 dk0).1.chunks = chunksOf sepCorpus ∧
    buildBody sepEnv st0 dk0
      = Except.ok ((build sepEnv st0 dk0).1, (build sepEnv st0 dk0).2) :=
  c6_no_validation_amended sepEnv st0 dk0 sepCorpus [[0]] [[0]] 1 rfl rfl
    (by decide) (by decide) (by decide)

/-- C7: on every corpus with at least one non-blank paragraph, the
chunker returns exactly the non-blank paragraphs of the double-newline
split, each trimmed and non-empty, in original order, and its length
equals the number of non-blank paragraphs. -/
theorem c7_chunker :
    ∀ content : PyStr,
      (∃ p ∈ pySplit nl2 (normalizeNewlines content), pyStrip p ≠ []) →
      chunk_text content
        = ((pySplit nl2 (normalizeNewlines content)).filter
            (fun p => pyStrip p ≠ [])).map pyStrip ∧
      (chunk_text content).length
        = ((pySplit nl2 (normalizeNewlines content)).filter
            (fun p => pyStrip p ≠ [])).length ∧
      chunk_text content ≠ [] ∧
      ∀ c ∈ chunk_text content, c ≠ [] ∧ pyStrip c = c := by
  intro content hex
  have heq : chunk_text content
      = ((pySplit nl2 (normalizeNewlines content)).filter
          (fun p => pyStrip p ≠ [])).map pyStrip := by
    unfold chunk_text
    rw [List.filter_map pyStrip (pySplit nl2 (normalizeNewlines content))]
    rfl
  have hne : chunk_text content ≠ [] := by
    rw [heq]
    intro hnil
    rw [List.map_eq_nil, List.filter_eq_nil] at hnil
    obtain ⟨p, hp, hps⟩ := hex
    exact (hnil p hp) (by simpa using hps)
  refine ⟨heq, by rw [heq, List.length_map], hne, ?_⟩
  intro c hc
  exact mem_stripFilter
    (show c ∈ ((pySplit nl2 (normalizeNewlines content)).map
      pyStrip).filter (fun c => c ≠ []) from hc)

/-- C7 witness at the concrete two-paragraph corpus of the spec. -/
theorem c7_chunker_witness :
    chunk_text (("Reset password.\n\nContact support.").data)
      = ((pySplit nl2 (normalizeNewlines
          (("Reset password.\n\nContact support.").data))).filter
          (fun p => pyStrip p ≠ [])).map pyStrip ∧
    (chunk_text (("Reset password.\n\nContact support.").data)).length
      = ((pySplit nl2 (normalizeNewlines
          (("Reset password.\n\nContact support.").data))).filter
          (fun p => pyStrip p ≠ [])).length ∧
    chunk_text (("Reset password.\n\nContact support.").data) ≠ [] ∧
    ∀ c ∈ chunk_text (("Reset password.\n\nContact support.").data),
      c ≠ [] ∧ pyStrip c = c :=
  c7_chunker (("Reset password.\n\nContact support.").data) (by decide)

/-- Environment used by the C8 witness: only the provider matters. -/
def qEnv : Env := ⟨true, none, embedStub⟩

/-- A ready one-vector, one-chunk retriever state. -/
def stReady : RState := ⟨some ⟨1, [[0]]⟩, [['A']], true⟩

/-- C8: with a ready index of N ≥ 1 vectors aligned with N chunks,
the retrieval loop returns exactly min(k, N) chunks (hence at most k),
every returned chunk is one of the stored chunks (ordinals outside the
range — including the -1 padding FAISS emits when k exceeds N — are
skipped, never used to index), and for k ≥ 1 search returns the
blank-line join of exactly those chunks. -/
theorem c8_topk :
    ∀ (env : Env) (st : RState) (dk : Disk) (q : PyStr) (k : Nat)
      (idx : IndexFlatL2) (e : Vec) (l : List Vec),
      st.initialized = true → st.index = some idx → env.svc = true →
      idx.ntotal = st.chunks.length → 1 ≤ idx.ntotal →
      env.embed [q] = some (e :: l) → e.length = idx.d →
      (retrievedChunks idx st.chunks e k).length = min k idx.ntotal ∧
      (retrievedChunks idx st.chunks e k).length ≤ k ∧
      (∀ c ∈ retrievedChunks idx st.chunks e k, c ∈ st.chunks) ∧
      (1 ≤ k →
        (search env st dk q k).2
          = pyJoin nl2 (retrievedChunks idx st.chunks e k)) := by
  intro env st dk q k idx e l hinit hidx hsvc halign hN hemb hdim
  have h1 := retrievedChunks_length e k halign
  refine ⟨h1, ?_, retrievedChunks_subset e k halign, ?_⟩
  · rw [h1]
    exact Nat.min_le_left k _
  · intro hk
    have hpos : 0 < (retrievedChunks idx st.chunks e k).length := by
      rw [h1]
      omega
    have hres : retrievedChunks idx st.chunks e k ≠ [] :=
      List.ne_nil_of_length_pos hpos
    simp [search, hinit, hidx, hsvc, hemb, hdim, hres]

/-- C8 witness: N = 1, k = 2, so exactly min(2, 1) = 1 chunk comes back
and the padding ordinal -1 is skipped. -/
theorem c8_topk_witness :
    (retrievedChunks ⟨1, [[0]]⟩ stReady.chunks [0] 2).length
      = min 2 (⟨1, [[0]]⟩ : IndexFlatL2).ntotal ∧
    (retrievedChunks ⟨1, [[0]]⟩ stReady.chunks [0] 2).length ≤ 2 ∧
    (∀ c ∈ retrievedChunks ⟨1, [[0]]⟩ stReady.chunks [0] 2,
      c ∈ stReady.chunks) ∧
    (1 ≤ 2 →
      (search qEnv stReady dk0 (['q']) 2).2
        = pyJoin nl2 (retrievedChunks ⟨1, [[0]]⟩ stReady.chunks [0] 2)) :=
  c8_topk qEnv stReady dk0 (['q']) 2 ⟨1, [[0]]⟩ [0] [] rfl rfl rfl
    (by decide) (by decide) (by decide) (by decide)

/-- C9: search never propagates an exception: every internal failure
mode is caught, and the result is always one of the fixed strings
(not-initialized error, caught-exception error, no-information
sentinel) or the blank-line join of retrieved chunks; likewise
retrieve_knowledge returns a fixed error string when the global
retriever is absent. -/
theorem c9_search_total :
    ∀ (env : Env) (st : RState) (dk : Disk) (q : PyStr) (k : Nat),
      ((search env st dk q k).2 = errNotInit ∨
        (search env st dk q k).2 = errSearchFail ∨
        (search env st dk q k).2 = noInfo ∨
        ∃ idx cs e, (search env st dk q k).2
          = pyJoin nl2 (retrievedChunks idx cs e k)) ∧
      retrieve_knowledge none q = errNoRetriever := by
  intro env st dk q k
  refine ⟨?_, rfl⟩
  rcases hidx : (if st.initialized then (st, dk)
      else initialize_ env st dk).1.index with _ | idx
  · left
    simp [search, hidx]
  · cases hsvc : env.svc with
    | false =>
      left
      simp [search, hidx, hsvc]
    | true =>
      rcases hemb : env.embed [q] with _ | el
      · right; left
        simp [search, hidx, hsvc, hemb]
      · cases el with
        | nil =>
          right; left
          simp [search, hidx, hsvc, hemb]
        | cons e es =>
          by_cases hdim : e.length = idx.d
          · by_cases hres : retrievedChunks idx
                (if st.initialized then (st, dk)
                  else initialize_ env st dk).1.chunks e k = []
            · right; right; left
              simp [search, hidx, hsvc, hemb, hdim, hres]
            · right; right; right
              refine ⟨idx, (if st.initialized then (st, dk)
                else initialize_ env st dk).1.chunks, e, ?_⟩
              simp [search, hidx, hsvc, hemb, hdim, hres]
          · right; left
            simp [search, hidx, hsvc, hemb, hdim]

/-- C10: both build and load preserve — and on their parsing paths
establish — that every stored chunk is a non-empty string with no
leading or trailing whitespace. -/
theorem c10_chunk_invariant :
    (∀ (env : Env) (st : RState) (dk : Disk),
      chunkInv st.chunks → chunkInv (build env st dk).1.chunks) ∧
    (∀ (env : Env) (st : RState) (dk : Disk),
      chunkInv st.chunks → chunkInv (load env st dk).1.chunks) :=
  ⟨build_preserves_chunkInv, load_preserves_chunkInv⟩

/-- C10 witness: the invariant after a concrete build and after a
concrete successful load. -/
theorem c10_chunk_invariant_witness :
    chunkInv (build wEnv st0 dk0).1.chunks ∧
    chunkInv (load wEnv st0 dkLoad).1.chunks :=
  ⟨c10_chunk_invariant.1 wEnv st0 dk0 (by intro c hc; simp [st0] at hc),
   c10_chunk_invariant.2 wEnv st0 dkLoad
     (by intro c hc; simp [st0] at hc)⟩


end CSA
